import Mathlib

/-!
Verification development for the gdgHack repository.

Part I models the recommendation Ranking Engine.  The repository only ships
the engine's README (`src/unnamed/part_000`); the Flask implementation itself
is not under `src/`, so the pipeline below is modelled from the spec
(stages 1-5 of §4, validation of §7).  Scores are rationals standing in for
the floats of the implementation.

Part II models the Express controllers `createStudent` / `createEducator`
(auth-user rollback) and `updateStudent` / `updateEducator` (update-set
construction), translated from `src/backend/controller/studentController.js`
and `src/backend/controller/educatorController.js`.
-/

namespace GdgHack

/-- Modelled from the spec: a candidate as received by the Ranking Engine,
with its identifier and the two upstream scores (§3 Data Model).  Metadata is
opaque and carried through unmodified, so it is omitted from the model. -/
structure Candidate where
  id : String
  semantic_score : ℚ
  keyword_score : ℚ
  deriving DecidableEq, Repr

/-- Modelled from the spec: the fixed semantic weight (0.7), exposed as a
named constant per §4 Stage 1. -/
def semanticWeight : ℚ := 0.7

/-- Modelled from the spec: the fixed keyword weight (0.3). -/
def keywordWeight : ℚ := 0.3

/-- Modelled from the spec: Stage 1 of §4,
`hybrid_score = 0.7 * semantic_score + 0.3 * keyword_score`. -/
def hybridScore (c : Candidate) : ℚ :=
  semanticWeight * c.semantic_score + keywordWeight * c.keyword_score

/-- Modelled from the spec: §7 input validation — non-empty query, top_k in
[1, 20], unique candidate identifiers, both upstream scores inside [0, 1]. -/
def validRequest (query : String) (top_k : ℕ) (pool : List Candidate) : Bool :=
  decide (query ≠ "") && decide (1 ≤ top_k) && decide (top_k ≤ 20) &&
  decide ((pool.map Candidate.id).Nodup) &&
  pool.all fun c =>
    decide (0 ≤ c.semantic_score) && decide (c.semantic_score ≤ 1) &&
    decide (0 ≤ c.keyword_score) && decide (c.keyword_score ≤ 1)

/-- Modelled from the spec: a candidate enriched in place by the engine with
its hybrid score, optional rerank score and final score (§3 lifecycle). -/
structure ScoredCandidate where
  cand : Candidate
  hybrid : ℚ
  rerank : Option ℚ
  final : ℚ
  deriving DecidableEq, Repr

/-- Modelled from the spec: Stage 1 applied to the whole pool; before the
rerank stage the final score is the hybrid score and rerank_score is absent. -/
def scorePool (pool : List Candidate) : List ScoredCandidate :=
  pool.map fun c => ⟨c, hybridScore c, none, hybridScore c⟩

/-- Modelled from the spec: the ordering used by Stage 2, hybrid score
descending. -/
def hybridDescRel (a b : ScoredCandidate) : Prop := b.hybrid ≤ a.hybrid

instance : DecidableRel hybridDescRel := fun a b =>
  inferInstanceAs (Decidable (b.hybrid ≤ a.hybrid))

instance : IsTotal ScoredCandidate hybridDescRel :=
  ⟨fun a b => (le_total b.hybrid a.hybrid).imp id id⟩

instance : IsTrans ScoredCandidate hybridDescRel :=
  ⟨fun _ _ _ h1 h2 => le_trans h2 h1⟩

/-- Modelled from the spec: Stage 2 — sort by hybrid score descending and
take the top `min(20, pool_size)` as the rerank shortlist. -/
def shortlistOf (pool : List Candidate) : List ScoredCandidate :=
  (List.insertionSort hybridDescRel (scorePool pool)).take (min 20 pool.length)

/-- Modelled from the spec: the fixed affine map of the Reranker's declared
[rmin, rmax] range onto [0, 1] (§4 Stage 4). -/
def normalize (rmin rmax r : ℚ) : ℚ := (r - rmin) / (rmax - rmin)

/-- Modelled from the spec: Stage 4 final score — `0.5 * hybrid_score +
0.5 * normalize(rerank_score)` when a rerank score is present, the hybrid
score alone otherwise. -/
def finalScoreFn (rmin rmax hybrid : ℚ) (rerank : Option ℚ) : ℚ :=
  match rerank with
  | none => hybrid
  | some r => 1/2 * hybrid + 1/2 * normalize rmin rmax r

/-- Modelled from the spec: Stages 3-4 — when a Reranker is available it is
invoked on each shortlist member, populating rerank_score and the merged
final score; when it is unavailable or errors (`none`) the stage is skipped
entirely and every candidate keeps `final = hybrid`. -/
def applyRerank (reranker : Option (Candidate → ℚ)) (rmin rmax : ℚ)
    (pool : List Candidate) : List ScoredCandidate :=
  match reranker with
  | none => scorePool pool
  | some f =>
    let sl := shortlistOf pool
    (scorePool pool).map fun s =>
      if s ∈ sl then
        { s with rerank := some (f s.cand)
                 final := finalScoreFn rmin rmax s.hybrid (some (f s.cand)) }
      else s

/-- Modelled from the spec: the ordering used by Stage 5 — final score
descending, ties by hybrid score descending, then by candidate identifier
ascending. -/
def finalRel (a b : ScoredCandidate) : Prop :=
  b.final < a.final ∨
    (a.final = b.final ∧
      (b.hybrid < a.hybrid ∨ (a.hybrid = b.hybrid ∧ a.cand.id ≤ b.cand.id)))

instance : DecidableRel finalRel := fun a b =>
  inferInstanceAs (Decidable (b.final < a.final ∨
    (a.final = b.final ∧
      (b.hybrid < a.hybrid ∨ (a.hybrid = b.hybrid ∧ a.cand.id ≤ b.cand.id)))))

instance : IsTotal ScoredCandidate finalRel := by
  constructor
  intro a b
  rcases lt_trichotomy a.final b.final with h | h | h
  · exact Or.inr (Or.inl h)
  · rcases lt_trichotomy a.hybrid b.hybrid with h2 | h2 | h2
    · exact Or.inr (Or.inr ⟨h.symm, Or.inl h2⟩)
    · rcases le_total a.cand.id b.cand.id with h3 | h3
      · exact Or.inl (Or.inr ⟨h, Or.inr ⟨h2, h3⟩⟩)
      · exact Or.inr (Or.inr ⟨h.symm, Or.inr ⟨h2.symm, h3⟩⟩)
    · exact Or.inl (Or.inr ⟨h, Or.inl h2⟩)
  · exact Or.inl (Or.inl h)

instance : IsTrans ScoredCandidate finalRel := by
  constructor
  intro a b c hab hbc
  rcases hab with h1 | ⟨e1, h1⟩
  · rcases hbc with h2 | ⟨e2, _⟩
    · exact Or.inl (h2.trans h1)
    · exact Or.inl (e2 ▸ h1)
  · rcases hbc with h2 | ⟨e2, h2⟩
    · exact Or.inl (e1 ▸ h2)
    · refine Or.inr ⟨e1.trans e2, ?_⟩
      rcases h1 with h1 | ⟨f1, h1⟩
      · rcases h2 with h2 | ⟨f2, _⟩
        · exact Or.inl (h2.trans h1)
        · exact Or.inl (f2 ▸ h1)
      · rcases h2 with h2 | ⟨f2, h2⟩
        · exact Or.inl (f1 ▸ h2)
        · exact Or.inr ⟨f1.trans f2, h1.trans h2⟩

/-- Modelled from the spec: the full Ranking Engine pipeline — validation
(§7), Stage 1 scoring, Stages 2-4 shortlist and rerank merge, Stage 5 sort
by final score with deterministic tie-break and truncation to top_k.  A
validation failure aborts before any scoring. -/
def rankingPipeline (reranker : Option (Candidate → ℚ)) (rmin rmax : ℚ)
    (query : String) (top_k : ℕ) (pool : List Candidate) :
    Except String (List ScoredCandidate) :=
  if validRequest query top_k pool then
    Except.ok ((List.insertionSort finalRel (applyRerank reranker rmin rmax pool)).take top_k)
  else
    Except.error "validation failure"

/-- Concrete pool of the spec's §8 scenario. -/
def candA : Candidate := ⟨"A", 0.9, 0.1⟩

/-- Concrete pool of the spec's §8 scenario. -/
def candB : Candidate := ⟨"B", 0.5, 0.9⟩

/-- Concrete pool of the spec's §8 scenario. -/
def candC : Candidate := ⟨"C", 0.2, 0.2⟩

/-- Every element of `scorePool` carries no rerank score and has its final
score equal to its hybrid score. -/
theorem mem_scorePool {s : ScoredCandidate} {pool : List Candidate}
    (hs : s ∈ scorePool pool) :
    s.rerank = none ∧ s.final = s.hybrid := by
  rcases List.mem_map.mp hs with ⟨c, _, rfl⟩
  exact ⟨rfl, rfl⟩

/-- The rerank stage never adds or drops candidates. -/
theorem length_applyRerank (reranker : Option (Candidate → ℚ)) (rmin rmax : ℚ)
    (pool : List Candidate) :
    (applyRerank reranker rmin rmax pool).length = pool.length := by
  cases reranker <;> simp [applyRerank, scorePool]

/-- C1: Stage 1 computes `hybrid_score = 0.7 * semantic_score +
0.3 * keyword_score` for every candidate, and on the pool A(0.9, 0.1),
B(0.5, 0.9), C(0.2, 0.2) with top_k = 2 and no reranker the hybrid scores
are 0.66, 0.62, 0.20 and the ranked result is [A, B]. -/
theorem hybrid_formula_and_scenario :
    (∀ c : Candidate,
      hybridScore c = 0.7 * c.semantic_score + 0.3 * c.keyword_score) ∧
    hybridScore candA = 0.66 ∧ hybridScore candB = 0.62 ∧
    hybridScore candC = 0.20 ∧
    (rankingPipeline none 0 1 "q" 2 [candA, candB, candC]).map
        (List.map fun s => s.cand.id) = Except.ok ["A", "B"] := by
  refine ⟨fun c => rfl, by norm_num [hybridScore, candA, semanticWeight, keywordWeight],
    by norm_num [hybridScore, candB, semanticWeight, keywordWeight],
    by norm_num [hybridScore, candC, semanticWeight, keywordWeight], ?_⟩
  norm_num [rankingPipeline, validRequest, applyRerank, scorePool, List.insertionSort,
    List.orderedInsert, finalRel, hybridScore, semanticWeight, keywordWeight,
    candA, candB, candC]
  rw [if_pos (by decide : ¬"q" = "" ∧ (¬"A" = "B" ∧ ¬"A" = "C") ∧ ¬"B" = "C")]
  rfl

/-- C2: every candidate leaving the rerank stage with a rerank score has
`final = 0.5 * hybrid + 0.5 * normalize(rerank)` where normalize is the fixed
affine map of [rmin, rmax] onto [0, 1]; every candidate without one (not
shortlisted, or stage skipped) keeps `final = hybrid`, and when the stage is
skipped no candidate gets a rerank score; with a reranker present each output
candidate is either a shortlisted one carrying the merged score or a
non-shortlisted one left untouched. -/
theorem final_score_merge (reranker : Option (Candidate → ℚ)) (rmin rmax : ℚ)
    (pool : List Candidate) :
    ∀ s ∈ applyRerank reranker rmin rmax pool,
      (∀ r, s.rerank = some r →
        s.final = 1/2 * s.hybrid + 1/2 * ((r - rmin) / (rmax - rmin))) ∧
      (s.rerank = none → s.final = s.hybrid) ∧
      (reranker = none → s.rerank = none) ∧
      (∀ f, reranker = some f → ∃ b ∈ scorePool pool,
        (b ∈ shortlistOf pool ∧
          s = { b with rerank := some (f b.cand)
                       final := finalScoreFn rmin rmax b.hybrid (some (f b.cand)) }) ∨
        (b ∉ shortlistOf pool ∧ s = b)) := by
  intro s hs
  cases reranker with
  | none =>
    simp only [applyRerank] at hs
    obtain ⟨h1, h2⟩ := mem_scorePool hs
    refine ⟨fun r hr => ?_, fun _ => h2, fun _ => h1, fun f hf => by cases hf⟩
    rw [h1] at hr
    cases hr
  | some f =>
    simp only [applyRerank] at hs
    rcases List.mem_map.mp hs with ⟨b, hb, rfl⟩
    obtain ⟨hbn, hbf⟩ := mem_scorePool hb
    by_cases hsl : b ∈ shortlistOf pool
    · rw [if_pos hsl]
      refine ⟨?_, ?_, ?_, ?_⟩
      · intro r hr
        cases hr
        simp [finalScoreFn, normalize]
      · intro hn
        cases hn
      · intro hn
        cases hn
      · intro g hg
        cases hg
        exact ⟨b, hb, Or.inl ⟨hsl, rfl⟩⟩
    · rw [if_neg hsl]
      refine ⟨?_, ?_, ?_, ?_⟩
      · intro r hr
        rw [hbn] at hr
        cases hr
      · intro _
        exact hbf
      · intro hn
        cases hn
      · intro g hg
        cases hg
        exact ⟨b, hb, Or.inr ⟨hsl, rfl⟩⟩

/-- Candidate used by the concrete shortlist witness: hybrid score 1. -/
def zCand : Candidate := ⟨"z", 1, 1⟩

/-- Candidate used by the concrete shortlist witness: hybrid score 0. -/
def tCand : Candidate := ⟨"t", 0, 0⟩

/-- Pool of 21 candidates (20 with hybrid score 1, one with hybrid score 0)
used to witness the shortlist bound. -/
def pool21 : List Candidate :=
  [zCand, zCand, zCand, zCand, zCand, zCand, zCand, zCand, zCand, zCand,
   zCand, zCand, zCand, zCand, zCand, zCand, zCand, zCand, zCand, zCand,
   tCand]

/-- C3: the rerank shortlist has exactly `min(20, pool_size)` members, and
every shortlisted candidate's hybrid score is at least the hybrid score of
every scored candidate left outside the shortlist; top_k plays no part. -/
theorem shortlist_size_and_top (pool : List Candidate) :
    (shortlistOf pool).length = min 20 pool.length ∧
    ∀ s ∈ shortlistOf pool, ∀ t ∈ scorePool pool,
      t ∉ shortlistOf pool → t.hybrid ≤ s.hybrid := by
  have hperm := List.perm_insertionSort hybridDescRel (scorePool pool)
  have hlen : (List.insertionSort hybridDescRel (scorePool pool)).length
      = pool.length := by
    rw [hperm.length_eq]
    simp [scorePool]
  constructor
  · rw [shortlistOf, List.length_take, hlen]
    exact min_eq_left (min_le_right 20 pool.length)
  · intro s hs t ht hnt
    have hsorted : List.Sorted hybridDescRel
        (List.insertionSort hybridDescRel (scorePool pool)) :=
      List.sorted_insertionSort hybridDescRel (scorePool pool)
    have ht' : t ∈ List.insertionSort hybridDescRel (scorePool pool) :=
      hperm.mem_iff.mpr ht
    rw [← List.take_append_drop (min 20 pool.length)
      (List.insertionSort hybridDescRel (scorePool pool))] at hsorted ht'
    have hdrop : t ∈ (List.insertionSort hybridDescRel (scorePool pool)).drop
        (min 20 pool.length) := by
      rcases List.mem_append.mp ht' with h | h
      · exact absurd h hnt
      · exact h
    exact (List.pairwise_append.mp hsorted).2.2 s hs t hdrop

/-- Witness for the final-score merge theorem at a concrete pool with the
rerank stage skipped. -/
theorem final_score_merge_witness :
    (⟨candA, hybridScore candA, none, hybridScore candA⟩ : ScoredCandidate).final
      = (⟨candA, hybridScore candA, none, hybridScore candA⟩ : ScoredCandidate).hybrid :=
  ((final_score_merge none 0 1 [candA]
      ⟨candA, hybridScore candA, none, hybridScore candA⟩
      (by simp [applyRerank, scorePool])).2.1) rfl

/-- Witness for the shortlist theorem on the concrete 21-candidate pool:
the shortlist bound holds and the excluded candidate's hybrid score is
dominated. -/
theorem shortlist_size_and_top_witness :
    (shortlistOf pool21).length = min 20 pool21.length ∧
    (⟨tCand, hybridScore tCand, none, hybridScore tCand⟩ : ScoredCandidate).hybrid
      ≤ (⟨zCand, hybridScore zCand, none, hybridScore zCand⟩ : ScoredCandidate).hybrid :=
  ⟨(shortlist_size_and_top pool21).1,
   (shortlist_size_and_top pool21).2
     ⟨zCand, hybridScore zCand, none, hybridScore zCand⟩
     (by norm_num [shortlistOf, scorePool, pool21, zCand, tCand, hybridScore,
        semanticWeight, keywordWeight, List.insertionSort, List.orderedInsert,
        hybridDescRel])
     ⟨tCand, hybridScore tCand, none, hybridScore tCand⟩
     (List.mem_map_of_mem _ (by simp [pool21]))
     (by norm_num [shortlistOf, scorePool, pool21, zCand, tCand, hybridScore,
        semanticWeight, keywordWeight, List.insertionSort, List.orderedInsert,
        hybridDescRel])⟩

/-- C4: any successful ranking result is sorted by the Stage 5 order (final
score descending, ties by hybrid score descending, then identifier
ascending), is cut to at most top_k entries, the Stage 5 order is total,
two candidates tying on final and hybrid score are ordered by identifier
ascending, and the pipeline is deterministic: a rerun on the same input
yields the same output. -/
theorem final_ordering_total_and_deterministic
    (reranker : Option (Candidate → ℚ)) (rmin rmax : ℚ) (query : String)
    (top_k : ℕ) (pool : List Candidate) (out : List ScoredCandidate)
    (h : rankingPipeline reranker rmin rmax query top_k pool = Except.ok out) :
    List.Sorted finalRel out ∧
    out.length ≤ top_k ∧
    (∀ a b : ScoredCandidate, finalRel a b ∨ finalRel b a) ∧
    (∀ a b : ScoredCandidate, a.final = b.final → a.hybrid = b.hybrid →
      (finalRel a b ↔ a.cand.id ≤ b.cand.id)) ∧
    (∀ out', rankingPipeline reranker rmin rmax query top_k pool = Except.ok out'
      → out' = out) := by
  have hval : validRequest query top_k pool = true := by
    by_contra hv
    simp [rankingPipeline, hv] at h
  rw [rankingPipeline, if_pos hval] at h
  injection h with h
  refine ⟨?_, ?_, fun a b => IsTotal.total a b, ?_, ?_⟩
  · rw [← h]
    exact List.Pairwise.sublist (List.take_sublist _ _)
      (List.sorted_insertionSort finalRel _)
  · rw [← h]
    exact List.length_take_le _ _
  · intro a b hf hh
    simp [finalRel, hf, hh]
  · intro out' h'
    rw [rankingPipeline, if_pos hval] at h'
    injection h' with h'
    rw [← h', ← h]

/-- Witness for the Stage 5 ordering theorem at a concrete valid request. -/
theorem final_ordering_witness :
    List.Sorted finalRel ([] : List ScoredCandidate) ∧
    ([] : List ScoredCandidate).length ≤ 1 ∧
    (∀ a b : ScoredCandidate, finalRel a b ∨ finalRel b a) ∧
    (∀ a b : ScoredCandidate, a.final = b.final → a.hybrid = b.hybrid →
      (finalRel a b ↔ a.cand.id ≤ b.cand.id)) ∧
    (∀ out', rankingPipeline none 0 1 "q" 1 [] = Except.ok out' → out' = []) :=
  final_ordering_total_and_deterministic none 0 1 "q" 1 [] [] rfl

/-- C5: when the Reranker is unavailable or errors the stage is skipped for
all candidates — no candidate receives a rerank score, every final score
equals the hybrid score — and the request still succeeds with a correctly
ordered list of `min(top_k, pool_size)` candidates. -/
theorem reranker_failure_degrades_gracefully (rmin rmax : ℚ) (query : String)
    (top_k : ℕ) (pool : List Candidate)
    (hv : validRequest query top_k pool = true) :
    ∃ out, rankingPipeline none rmin rmax query top_k pool = Except.ok out ∧
      (∀ s ∈ out, s.rerank = none ∧ s.final = s.hybrid) ∧
      out.length = min top_k pool.length ∧
      List.Sorted finalRel out := by
  refine ⟨_, by rw [rankingPipeline, if_pos hv], ?_, ?_, ?_⟩
  · intro s hs
    have hs1 : s ∈ List.insertionSort finalRel (applyRerank none rmin rmax pool) :=
      List.take_subset _ _ hs
    have hs2 : s ∈ applyRerank none rmin rmax pool :=
      (List.perm_insertionSort finalRel _).mem_iff.mp hs1
    simp only [applyRerank] at hs2
    exact mem_scorePool hs2
  · rw [List.length_take, List.length_insertionSort, length_applyRerank]
  · exact List.Pairwise.sublist (List.take_sublist _ _)
      (List.sorted_insertionSort finalRel _)

/-- Witness for the degrade-gracefully theorem at a concrete valid request. -/
theorem reranker_failure_witness :
    ∃ out, rankingPipeline none 0 1 "q" 5 [] = Except.ok out ∧
      (∀ s ∈ out, s.rerank = none ∧ s.final = s.hybrid) ∧
      out.length = min 5 ([] : List Candidate).length ∧
      List.Sorted finalRel out :=
  reranker_failure_degrades_gracefully 0 1 "q" 5 [] rfl

/-- C6: a request with an empty query, a top_k outside [1, 20], duplicate
candidate identifiers, or any upstream score outside [0, 1] is rejected as a
validation error: the pipeline aborts with an error and produces no scored
output at all. -/
theorem validation_rejects_before_scoring (reranker : Option (Candidate → ℚ))
    (rmin rmax : ℚ) (query : String) (top_k : ℕ) (pool : List Candidate)
    (h : query = "" ∨ top_k < 1 ∨ 20 < top_k ∨
      ¬ (pool.map Candidate.id).Nodup ∨
      ∃ c ∈ pool, c.semantic_score < 0 ∨ 1 < c.semantic_score ∨
        c.keyword_score < 0 ∨ 1 < c.keyword_score) :
    rankingPipeline reranker rmin rmax query top_k pool
      = Except.error "validation failure" := by
  rw [rankingPipeline, if_neg]
  intro hv
  simp only [validRequest, Bool.and_eq_true, decide_eq_true_eq,
    List.all_eq_true] at hv
  obtain ⟨⟨⟨⟨hq, h1⟩, h2⟩, hnd⟩, hall⟩ := hv
  rcases h with h | h | h | h | ⟨c, hc, hbad⟩
  · exact hq h
  · omega
  · omega
  · exact h hnd
  · have hc' := hall c hc
    simp only [Bool.and_eq_true, decide_eq_true_eq] at hc'
    obtain ⟨⟨⟨hs0, hs1⟩, hk0⟩, hk1⟩ := hc'
    rcases hbad with hb | hb | hb | hb <;> linarith

/-- Witness for the validation theorem: top_k = 25 is rejected. -/
theorem validation_rejects_witness :
    rankingPipeline none 0 1 "q" 25 [] = Except.error "validation failure" :=
  validation_rejects_before_scoring none 0 1 "q" 25 []
    (Or.inr (Or.inr (Or.inl (by norm_num))))

/-- C7: an empty candidate pool is not an error — a valid request over it
returns an empty result — and a top_k exceeding the pool size is not an
error — all pool candidates are returned, fewer than top_k. -/
theorem empty_pool_and_oversized_top_k (reranker : Option (Candidate → ℚ))
    (rmin rmax : ℚ) (query : String) (top_k : ℕ) (pool : List Candidate)
    (hq : query ≠ "") (h1 : 1 ≤ top_k) (h2 : top_k ≤ 20)
    (hnd : (pool.map Candidate.id).Nodup)
    (hsc : ∀ c ∈ pool, 0 ≤ c.semantic_score ∧ c.semantic_score ≤ 1 ∧
      0 ≤ c.keyword_score ∧ c.keyword_score ≤ 1) :
    ∃ out, rankingPipeline reranker rmin rmax query top_k pool = Except.ok out ∧
      out.length = min top_k pool.length ∧
      (pool = [] → out = []) ∧
      (pool.length < top_k → out.length = pool.length) := by
  have hval : validRequest query top_k pool = true := by
    simp only [validRequest, Bool.and_eq_true, decide_eq_true_eq,
      List.all_eq_true]
    refine ⟨⟨⟨⟨hq, h1⟩, h2⟩, hnd⟩, ?_⟩
    intro c hc
    obtain ⟨hs0, hs1, hk0, hk1⟩ := hsc c hc
    exact ⟨⟨⟨hs0, hs1⟩, hk0⟩, hk1⟩
  have hlen : ((List.insertionSort finalRel
      (applyRerank reranker rmin rmax pool)).take top_k).length
      = min top_k pool.length := by
    rw [List.length_take, List.length_insertionSort, length_applyRerank]
  refine ⟨_, by rw [rankingPipeline, if_pos hval], hlen, ?_, ?_⟩
  · intro hp
    subst hp
    cases reranker <;> simp [applyRerank, scorePool]
  · intro hlt
    rw [hlen]
    exact min_eq_right (Nat.le_of_lt hlt)

/-- Witness for the empty-pool theorem: empty pool with top_k = 5. -/
theorem empty_pool_witness :
    ∃ out, rankingPipeline none 0 1 "q" 5 [] = Except.ok out ∧
      out.length = min 5 ([] : List Candidate).length ∧
      (([] : List Candidate) = [] → out = []) ∧
      (([] : List Candidate).length < 5 → out.length = ([] : List Candidate).length) :=
  empty_pool_and_oversized_top_k none 0 1 "q" 5 [] (by decide) (by decide)
    (by decide) (by simp) (by simp)

/-- C8: the final score is monotone non-decreasing in the semantic score,
the keyword score and the rerank score individually, the other two inputs
held fixed (the rerank case assumes the Reranker's declared range is
non-degenerate, rmin < rmax). -/
theorem final_score_monotone (rmin rmax : ℚ) (hr : rmin < rmax) :
    (∀ (i : String) (k s₁ s₂ : ℚ) (ro : Option ℚ), s₁ ≤ s₂ →
      finalScoreFn rmin rmax (hybridScore ⟨i, s₁, k⟩) ro ≤
        finalScoreFn rmin rmax (hybridScore ⟨i, s₂, k⟩) ro) ∧
    (∀ (i : String) (s k₁ k₂ : ℚ) (ro : Option ℚ), k₁ ≤ k₂ →
      finalScoreFn rmin rmax (hybridScore ⟨i, s, k₁⟩) ro ≤
        finalScoreFn rmin rmax (hybridScore ⟨i, s, k₂⟩) ro) ∧
    (∀ (h r₁ r₂ : ℚ), r₁ ≤ r₂ →
      finalScoreFn rmin rmax h (some r₁) ≤ finalScoreFn rmin rmax h (some r₂)) := by
  have hybMono : ∀ (h₁ h₂ : ℚ) (ro : Option ℚ), h₁ ≤ h₂ →
      finalScoreFn rmin rmax h₁ ro ≤ finalScoreFn rmin rmax h₂ ro := by
    intro h₁ h₂ ro hle
    cases ro with
    | none => simpa [finalScoreFn] using hle
    | some r =>
      simp only [finalScoreFn]
      linarith
  have hsw : (0 : ℚ) ≤ semanticWeight := by norm_num [semanticWeight]
  have hkw : (0 : ℚ) ≤ keywordWeight := by norm_num [keywordWeight]
  refine ⟨?_, ?_, ?_⟩
  · intro i k s₁ s₂ ro hs
    apply hybMono
    exact add_le_add_right (mul_le_mul_of_nonneg_left hs hsw) _
  · intro i s k₁ k₂ ro hk
    apply hybMono
    exact add_le_add_left (mul_le_mul_of_nonneg_left hk hkw) _
  · intro hh r₁ r₂ hrr
    simp only [finalScoreFn, normalize]
    have hd : (0 : ℚ) < rmax - rmin := by linarith
    have hn : (r₁ - rmin) / (rmax - rmin) ≤ (r₂ - rmin) / (rmax - rmin) := by
      rw [div_le_div_iff₀ hd hd]
      nlinarith [mul_nonneg (by linarith : (0 : ℚ) ≤ r₂ - r₁) (le_of_lt hd)]
    linarith

/-- Witness for the monotonicity theorem at concrete inputs. -/
theorem final_score_monotone_witness :
    finalScoreFn 0 1 (hybridScore ⟨"x", 0, 0⟩) (some 0) ≤
      finalScoreFn 0 1 (hybridScore ⟨"x", 1, 0⟩) (some 0) :=
  (final_score_monotone 0 1 (by norm_num)).1 "x" 0 0 1 (some 0) (by norm_num)

/-! Part II: the Express controllers. -/

/-- State of the external stores touched by the create controllers: the
Supabase auth store and the two profile tables, each row keyed by the auth
user id and carrying the profile name. -/
structure BackendState where
  authUsers : List String
  studentRows : List (String × String)
  educatorRows : List (String × String)
  deriving DecidableEq, Repr

/-- Embedding of `createStudent` (studentController.js): create the auth
user (a 400 response if that fails), insert the profile row, and on insert
failure delete the just-created auth user before the 500 response. -/
def createStudent (authResult : Except String String) (insertFails : Bool)
    (student_name : String) (st : BackendState) : BackendState × ℕ :=
  match authResult with
  | Except.error _ => (st, 400)
  | Except.ok userId =>
    let st1 := { st with authUsers := userId :: st.authUsers }
    if insertFails then
      ({ st1 with authUsers := st1.authUsers.erase userId }, 500)
    else
      ({ st1 with studentRows := (userId, student_name) :: st1.studentRows }, 201)

/-- Embedding of `createEducator` (educatorController.js): identical control
flow against the educators table. -/
def createEducator (authResult : Except String String) (insertFails : Bool)
    (educator_name : String) (st : BackendState) : BackendState × ℕ :=
  match authResult with
  | Except.error _ => (st, 400)
  | Except.ok userId =>
    let st1 := { st with authUsers := userId :: st.authUsers }
    if insertFails then
      ({ st1 with authUsers := st1.authUsers.erase userId }, 500)
    else
      ({ st1 with educatorRows := (userId, educator_name) :: st1.educatorRows }, 201)

/-- C9: if the auth user is created but the profile insert fails, both
create controllers delete the new auth user before returning the 500
response: the stores end exactly as they began, so no auth user is left
without a matching profile row. -/
theorem create_rolls_back_auth_user (authResult : Except String String)
    (uid name : String) (st : BackendState)
    (ha : authResult = Except.ok uid) :
    createStudent authResult true name st = (st, 500) ∧
    createEducator authResult true name st = (st, 500) := by
  subst ha
  constructor <;>
    simp [createStudent, createEducator, List.erase_cons_head]

/-- Witness for the rollback theorem at a concrete failed insert. -/
theorem create_rolls_back_auth_user_witness :
    createStudent (Except.ok "u1") true "Ada" ⟨[], [], []⟩ = (⟨[], [], []⟩, 500) ∧
    createEducator (Except.ok "u1") true "Ada" ⟨[], [], []⟩ = (⟨[], [], []⟩, 500) :=
  create_rolls_back_auth_user (Except.ok "u1") "u1" "Ada" ⟨[], [], []⟩ rfl

/-- Value of a field in an update set (the educators table has a text-array
column, the rest are text). -/
inductive FieldVal where
  | str (s : String)
  | strList (l : List String)
  deriving DecidableEq, Repr

/-- Outcome of an update controller: either the 400 "no valid fields"
response, issued before any database call, or the update set handed to the
database. -/
inductive UpdateOutcome (φ : Type) where
  | badRequest (msg : String)
  | dbUpdate (fields : List φ)
  deriving DecidableEq, Repr

/-- Embedding of the update-set construction in `updateStudent`
(studentController.js): `student_name` is included only when truthy (a
present, non-empty string), `student_photo_key` whenever it is not
undefined. -/
def studentUpdates (student_name student_photo_key : Option String) :
    List (String × String) :=
  (match student_name with
   | some v => if v = "" then [] else [("student_name", v)]
   | none => []) ++
  (match student_photo_key with
   | some v => [("student_photo_key", v)]
   | none => [])

/-- Embedding of `updateStudent`: an empty update set yields the 400
response with no database call; otherwise the update set goes to the
database. -/
def updateStudent (student_name student_photo_key : Option String) :
    UpdateOutcome (String × String) :=
  let updates := studentUpdates student_name student_photo_key
  if updates.isEmpty then
    UpdateOutcome.badRequest "No valid fields provided for update"
  else
    UpdateOutcome.dbUpdate updates

/-- Embedding of the update-set construction in `updateEducator`
(educatorController.js): `educator_name` and `educator_photo_key` only when
truthy, `bio` whenever not undefined, `subjects` when present (the
controller normalises it to an array; the model takes the array form). -/
def educatorUpdates (educator_name bio : Option String)
    (subjects : Option (List String)) (educator_photo_key : Option String) :
    List (String × FieldVal) :=
  (match educator_name with
   | some v => if v = "" then [] else [("educator_name", FieldVal.str v)]
   | none => []) ++
  (match bio with
   | some v => [("bio", FieldVal.str v)]
   | none => []) ++
  (match subjects with
   | some l => [("subjects", FieldVal.strList l)]
   | none => []) ++
  (match educator_photo_key with
   | some v => if v = "" then [] else [("educator_photo_key", FieldVal.str v)]
   | none => [])

/-- Embedding of `updateEducator`: an empty update set yields the 400
response with no database call. -/
def updateEducator (educator_name bio : Option String)
    (subjects : Option (List String)) (educator_photo_key : Option String) :
    UpdateOutcome (String × FieldVal) :=
  let updates := educatorUpdates educator_name bio subjects educator_photo_key
  if updates.isEmpty then
    UpdateOutcome.badRequest "No valid fields provided for update"
  else
    UpdateOutcome.dbUpdate updates

/-- C10: a body carrying only an empty-string name gives an empty update
set, the 400 "No valid fields provided for update" response and no database
update, in both update controllers; more generally no update set these
controllers ever issue contains an empty-string name. -/
theorem update_treats_empty_name_as_absent :
    updateStudent (some "") none
      = UpdateOutcome.badRequest "No valid fields provided for update" ∧
    updateEducator (some "") none none none
      = UpdateOutcome.badRequest "No valid fields provided for update" ∧
    (∀ n p fields, updateStudent n p = UpdateOutcome.dbUpdate fields →
      ("student_name", "") ∉ fields) ∧
    (∀ n b s p fields, updateEducator n b s p = UpdateOutcome.dbUpdate fields →
      ("educator_name", FieldVal.str "") ∉ fields) := by
  refine ⟨rfl, rfl, ?_, ?_⟩
  · intro n p fields h
    have hf : fields = studentUpdates n p := by
      by_cases he : (studentUpdates n p).isEmpty <;>
        simp [updateStudent, he] at h <;> exact h.symm
    subst hf
    cases n with
    | none =>
      cases p with
      | none => simp [studentUpdates]
      | some v => simp [studentUpdates]
    | some nv =>
      cases p with
      | none =>
        by_cases hnv : nv = ""
        · simp [studentUpdates, hnv]
        · simp [studentUpdates, hnv, Ne.symm hnv]
      | some v =>
        by_cases hnv : nv = ""
        · simp [studentUpdates, hnv]
        · simp [studentUpdates, hnv, Ne.symm hnv]
  · intro n b s p fields h
    have hf : fields = educatorUpdates n b s p := by
      by_cases he : (educatorUpdates n b s p).isEmpty <;>
        simp [updateEducator, he] at h <;> exact h.symm
    subst hf
    simp only [educatorUpdates, List.mem_append]
    push_neg
    refine ⟨⟨⟨?_, ?_⟩, ?_⟩, ?_⟩
    · cases n with
      | none => simp
      | some nv =>
        by_cases hnv : nv = ""
        · simp [hnv]
        · simp [hnv, Ne.symm hnv]
    · cases b with
      | none => simp
      | some v => simp
    · cases s with
      | none => simp
      | some l => simp
    · cases p with
      | none => simp
      | some v => by_cases hv : v = "" <;> simp [hv]

/-- Witness for the update theorem: a body with an empty name and a photo
key issues an update set without the name. -/
theorem update_treats_empty_name_witness :
    ("student_name", "") ∉ [("student_photo_key", "k")] :=
  update_treats_empty_name_as_absent.2.2.1 (some "") (some "k")
    [("student_photo_key", "k")] rfl

end GdgHack
